import Mathlib

/-!
Verification development for the bootlin `squashfs-utils` SquashFS reader.

The repository ships two copies of the reader: a standalone diagnostic tool
(`src/*.c`) and a u-boot filesystem driver (`src/uboot/squashfs/*.c`).  The
definitions below are a shallow embedding of the routines those claims are
about.  Tables and buffers are modelled as `List Nat` of byte values, field
reads are little-endian byte reads at the offsets the C struct layouts give,
machine integers are `Nat`/`Int` with explicit `% 2^w` and `/`, and C bit
masks `x & (2^k - 1)` / bit tests `x & BIT(k)` are rendered as `x % 2^k` and
`x / 2^k % 2`.
-/

set_option maxRecDepth 100000

/-! ## Byte-level primitives -/

/-- Byte of a buffer at index `i` (out-of-range reads give 0). -/
def byteAt (l : List Nat) (i : Nat) : Nat := l.getD i 0

/-- Little-endian 16-bit read, as the C code's `uint16_t` loads from a mapped table. -/
def readU16 (l : List Nat) (p : Nat) : Nat := byteAt l p + 256 * byteAt l (p + 1)

/-- Little-endian 32-bit read. -/
def readU32 (l : List Nat) (p : Nat) : Nat := readU16 l p + 65536 * readU16 l (p + 2)

/-- Little-endian 64-bit read. -/
def readU64 (l : List Nat) (p : Nat) : Nat := readU32 l p + 4294967296 * readU32 l (p + 4)

/-- Little-endian encoding of a 16-bit value. -/
def encodeU16 (v : Nat) : List Nat := [v % 256, v / 256 % 256]

/-- Little-endian encoding of a 32-bit value. -/
def encodeU32 (v : Nat) : List Nat := encodeU16 (v % 65536) ++ encodeU16 (v / 65536 % 65536)

/-- Little-endian encoding of a 64-bit value. -/
def encodeU64 (v : Nat) : List Nat :=
  encodeU32 (v % 4294967296) ++ encodeU32 (v / 4294967296 % 4294967296)

theorem byteAt_append (A l : List Nat) (k : Nat) : byteAt (A ++ l) (A.length + k) = byteAt l k := by
  induction A with
  | nil => simp [byteAt]
  | cons x A ih =>
      have h : (x :: A).length + k = (A.length + k) + 1 := by simp [List.length_cons]; omega
      rw [List.cons_append, h]
      simpa [byteAt, List.getD_cons_succ] using ih

theorem byteAt_append_lt (A l : List Nat) (k : Nat) (hk : k < A.length) :
    byteAt (A ++ l) k = byteAt A k := by
  simp [byteAt, List.getD, List.getElem?_append, hk]

theorem readU16_append (A l : List Nat) (k : Nat) :
    readU16 (A ++ l) (A.length + k) = readU16 l k := by
  have h : A.length + k + 1 = A.length + (k + 1) := by omega
  simp [readU16, h, byteAt_append]

theorem readU32_append (A l : List Nat) (k : Nat) :
    readU32 (A ++ l) (A.length + k) = readU32 l k := by
  have h : A.length + k + 2 = A.length + (k + 2) := by omega
  simp [readU32, h, readU16_append]

theorem encodeU16_length (v : Nat) : (encodeU16 v).length = 2 := by simp [encodeU16]

theorem encodeU32_length (v : Nat) : (encodeU32 v).length = 4 := by
  simp [encodeU32, encodeU16]

theorem readU16_encode (v : Nat) (r : List Nat) : readU16 (encodeU16 v ++ r) 0 = v % 65536 := by
  simp [readU16, encodeU16, byteAt]
  omega

theorem readU32_encode (v : Nat) (r : List Nat) :
    readU32 (encodeU32 v ++ r) 0 = v % 4294967296 := by
  have e : encodeU32 v ++ r = encodeU16 (v % 65536) ++ (encodeU16 (v / 65536 % 65536) ++ r) := by
    simp [encodeU32, List.append_assoc]
  have h1 : readU16 (encodeU32 v ++ r) 0 = v % 65536 := by
    rw [e, readU16_encode]; omega
  have h2 : readU16 (encodeU32 v ++ r) 2 = v / 65536 % 65536 := by
    have h := readU16_append (encodeU16 (v % 65536)) (encodeU16 (v / 65536 % 65536) ++ r) 0
    rw [encodeU16_length] at h
    norm_num at h
    rw [e, h, readU16_encode]
    omega
  rw [readU32, h1, h2]
  omega

/-! ## C macros of the source

Macros from `src/sqfs_utils.h`, `src/sqfs_filesystem.h` and
`src/uboot/squashfs/sqfs_filesystem.h`.  Bit masks are rendered
with `%` and `/` as explained above. -/

/-- `IS_FRAGMENTED(A) ((A) != 0xFFFFFFFF)`, src/sqfs_filesystem.h:35. -/
def IS_FRAGMENTED (a : Nat) : Bool := a ≠ 0xFFFFFFFF

/-- `DIV_ROUND_UP(n, d)` as used by the u-boot copy; the standalone copy computes the
same ceiling with `ceil((float)n / d)` (exact for the magnitudes exercised here). -/
def DIV_ROUND_UP (n d : Nat) : Nat := (n + d - 1) / d

/-- `METADATA_BLOCK_SIZE 8192` / `SQFS_METADATA_BLOCK_SIZE 8192`. -/
def SQFS_METADATA_BLOCK_SIZE : Nat := 8192

/-- `IS_COMPRESSED(A) (!((A) & BIT(15)))`, src/sqfs_utils.h:32 (bit 15 set means
the metadata payload is stored uncompressed). -/
def IS_COMPRESSED (a : Nat) : Bool := a / 32768 % 2 = 0

/-- `DATA_SIZE(A) ((A) & GENMASK(14, 0))`, src/sqfs_utils.h:33. -/
def DATA_SIZE (a : Nat) : Nat := a % 32768

/-- `SQFS_MAGIC_NUMBER 0x73717368`, src/uboot/squashfs/sqfs_filesystem.h:15. -/
def SQFS_MAGIC_NUMBER : Nat := 0x73717368

/-- `COMPRESSED_FRAGMENT_BLOCK(A) (!((A) & BIT(24)))`, src/sqfs_inode.c:38. -/
def COMPRESSED_FRAGMENT_BLOCK (a : Nat) : Bool := a / 16777216 % 2 = 0

/-- `FRAGMENT_BLOCK_SIZE(A) ((A) & GENMASK(23, 0))`, src/sqfs_inode.c:39. -/
def FRAGMENT_BLOCK_SIZE (a : Nat) : Nat := a % 16777216

/-- Modelled from the spec: the u-boot driver's `sqfs_utils.h` (which defines
`SQFS_BLOCK_SIZE`) is not under src/; per spec §4.5 bits 0..23 of a block size
word are the on-disk size.  Identical to `FRAGMENT_BLOCK_SIZE` of src/sqfs_inode.c. -/
def SQFS_BLOCK_SIZE (a : Nat) : Nat := a % 16777216

/-- Modelled from the spec: `SQFS_COMPRESSED_BLOCK` of the missing u-boot
`sqfs_utils.h`; per spec §4.5 bit 24 of a block size word is the
"stored uncompressed" flag.  Identical to `COMPRESSED_FRAGMENT_BLOCK` of
src/sqfs_inode.c. -/
def SQFS_COMPRESSED_BLOCK (a : Nat) : Bool := a / 16777216 % 2 = 0

/-- Modelled from the spec: `SQFS_COMPRESSED_DATA` of the missing u-boot
`sqfs_utils.h`; superblock flag bit 1 (`SQFS_UNCOMPRESSED_DATA 0x0002`,
src/uboot/squashfs/sqfs_filesystem.h:14 and src/uboot/squashfs/sqfs_sblk.c:34)
set means data blocks are stored uncompressed, so the data is compressed when
that flag bit is clear. -/
def SQFS_COMPRESSED_DATA (flags : Nat) : Bool := flags / 2 % 2 = 0

/-! ## C2: block-list length of regular-file inodes

The four decoding branches that size the trailing `block_list` array of a
(extended) regular file inode. -/

/-- Floor of the base-2 logarithm, by structural recursion on a 64-step
budget: exact for every `n < 2^64`, which covers the u32/u64 file sizes fed
to it here. -/
def nat_log2_go : Nat → Nat → Nat
  | 0, _ => 0
  | fuel + 1, n => if n ≤ 1 then 0 else nat_log2_go fuel (n / 2) + 1

/-- `⌊log2 n⌋` for `n < 2^64`. -/
def nat_log2 (n : Nat) : Nat := nat_log2_go 64 n

/-- The value of the C cast `(float)n` for a natural `n` in the ranges used
here (`n < 2^64`, no overflow): rounded to the nearest IEEE-754 binary32
value, i.e. to 24 significant bits, ties to even.  Exact for
`n ≤ 2^24 = 16777216`. -/
def float_round (n : Nat) : Nat :=
  if n ≤ 16777216 then n
  else
    let e := nat_log2 n - 23
    let q := n / 2 ^ e
    let r := n % 2 ^ e
    if 2 * r < 2 ^ e then q * 2 ^ e
    else if 2 ^ e < 2 * r then (q + 1) * 2 ^ e
    else (if q % 2 = 0 then q else q + 1) * 2 ^ e

/-- `ceil((float)file_size / block_size)` as the standalone tool computes the
no-fragment block-list length: `file_size` is first rounded to float, and for
the power-of-two `block_size` the superblock invariant guarantees
(`block_size == 1 << block_log`, spec §3) the single-precision division is
then exact, so the ceiling equals the exact ceiling of the rounded operand
over `block_size`.  The u-boot copy computes the integer `DIV_ROUND_UP`
directly (src/uboot/squashfs/sqfs_inode.c:83, 123). -/
def float_ceil_div (file_size block_size : Nat) : Nat :=
  DIV_ROUND_UP (float_round file_size) block_size

/-- Block-list length computed on the `SQUASHFS_REG_TYPE` branch of
`sqfs_find_inode` (src/sqfs_inode.c:632-638): the no-fragment count is
`ceil((float)file_size / block_size)`. -/
def find_inode_reg_blk_list_size (fragment file_size block_size : Nat) : Nat :=
  if IS_FRAGMENTED fragment then file_size / block_size
  else float_ceil_div file_size block_size

/-- Block-list length computed on the `SQUASHFS_LREG_TYPE` branch of
`sqfs_find_inode` (src/sqfs_inode.c:661-667), same float-based ceiling. -/
def find_inode_lreg_blk_list_size (fragment file_size block_size : Nat) : Nat :=
  if fragment = 0xFFFFFFFF then float_ceil_div file_size block_size
  else file_size / block_size

/-- Block-list length computed on the `SQUASHFS_REG_TYPE` branch of
`sqfs_dump_directory_table` (src/sqfs_dir.c:366-372), same float-based
ceiling. -/
def dump_dir_table_reg_blk_list_size (fragment file_size block_size : Nat) : Nat :=
  if fragment = 0xFFFFFFFF then float_ceil_div file_size block_size
  else file_size / block_size

/-- Block-list length computed on the `SQUASHFS_LREG_TYPE` branch of
`sqfs_dump_directory_table` (src/sqfs_dir.c:380-386), same float-based
ceiling. -/
def dump_dir_table_lreg_blk_list_size (fragment file_size block_size : Nat) : Nat :=
  if fragment = 0xFFFFFFFF then float_ceil_div file_size block_size
  else file_size / block_size

/-- The rule as the spec states it (§4.4): `floor(file_size/block_size)` when the
inode has a fragment (`fragment != 0xFFFFFFFF`), the exact
`ceil(file_size/block_size)` when it has none. -/
def spec_blk_list_size (fragment file_size block_size : Nat) : Nat :=
  if fragment ≠ 0xFFFFFFFF then file_size / block_size
  else DIV_ROUND_UP file_size block_size

/-- Size in bytes the walk advances past a basic regular file inode:
`sizeof(struct squashfs_reg_inode) + block_list_size * sizeof(uint32_t)`
(src/sqfs_inode.c:640-641). -/
def reg_inode_walk_size (fragment file_size block_size : Nat) : Nat :=
  32 + find_inode_reg_blk_list_size fragment file_size block_size * 4

/-- Size in bytes the walk advances past an extended regular file inode:
`sizeof(struct squashfs_lreg_inode) + block_list_size * sizeof(uint32_t)`
(src/sqfs_inode.c:669-670). -/
def lreg_inode_walk_size (fragment file_size block_size : Nat) : Nat :=
  56 + find_inode_lreg_blk_list_size fragment file_size block_size * 4

/-- C2 counterexample: the claim asserts `block_list_size =
ceil(file_size/block_size)` on the no-fragment branches, but those branches
compute `ceil((float)file_size / block_size)`: at `file_size = 16777217`
(2^24 + 1) and `block_size = 65536` the operand rounds to the float
16777216.0, so both the REG and LREG branches yield 256 where the claimed
exact ceiling is 257. -/
theorem blk_list_size_float_counterexample :
    find_inode_reg_blk_list_size 0xFFFFFFFF 16777217 65536 = 256 ∧
    find_inode_lreg_blk_list_size 0xFFFFFFFF 16777217 65536 = 256 ∧
    spec_blk_list_size 0xFFFFFFFF 16777217 65536 = 257 := by
  refine ⟨by decide, by decide, by decide⟩

/-- C2 (amended): for every regular and extended-regular file inode decoded
during the walk, the trailing block-list array occupies `block_list_size * 4`
bytes where `block_list_size` is `floor(file_size/block_size)` when the inode
has a fragment (`fragment != 0xFFFFFFFF`) and, when it has none,
`ceil((float)file_size / block_size)` computed in single-precision
arithmetic — equal to the exact `ceil(file_size/block_size)` whenever
`file_size` is exactly representable as a float, in particular for every
`file_size ≤ 2^24`; all four decoding branches (basic/extended, in
`sqfs_find_inode` and in `sqfs_dump_directory_table`) apply this same rule. -/
theorem blk_list_size_rule (fragment file_size block_size : Nat) :
    (find_inode_lreg_blk_list_size fragment file_size block_size =
        find_inode_reg_blk_list_size fragment file_size block_size ∧
      dump_dir_table_reg_blk_list_size fragment file_size block_size =
        find_inode_reg_blk_list_size fragment file_size block_size ∧
      dump_dir_table_lreg_blk_list_size fragment file_size block_size =
        find_inode_reg_blk_list_size fragment file_size block_size ∧
      reg_inode_walk_size fragment file_size block_size =
        32 + find_inode_reg_blk_list_size fragment file_size block_size * 4 ∧
      lreg_inode_walk_size fragment file_size block_size =
        56 + find_inode_reg_blk_list_size fragment file_size block_size * 4) ∧
    (file_size ≤ 16777216 →
      find_inode_reg_blk_list_size fragment file_size block_size =
        spec_blk_list_size fragment file_size block_size) := by
  constructor
  · by_cases h : fragment = 0xFFFFFFFF <;>
      simp [find_inode_reg_blk_list_size, find_inode_lreg_blk_list_size,
        dump_dir_table_reg_blk_list_size, dump_dir_table_lreg_blk_list_size,
        reg_inode_walk_size, lreg_inode_walk_size, IS_FRAGMENTED, h]
  · intro hrep
    by_cases h : fragment = 0xFFFFFFFF <;>
      simp [find_inode_reg_blk_list_size, spec_blk_list_size, IS_FRAGMENTED, h,
        float_ceil_div, float_round, hrep]

/-- C2 witness: at `file_size = 8191`, `block_size = 4096` (float-exact) the
no-fragment REG branch equals the exact ceiling 2, and the LREG branch agrees
with the REG branch. -/
theorem blk_list_size_rule_witness :
    find_inode_reg_blk_list_size 0xFFFFFFFF 8191 4096 =
      spec_blk_list_size 0xFFFFFFFF 8191 4096 ∧
    find_inode_lreg_blk_list_size 0xFFFFFFFF 8191 4096 =
      find_inode_reg_blk_list_size 0xFFFFFFFF 8191 4096 :=
  ⟨(blk_list_size_rule 0xFFFFFFFF 8191 4096).2 (by decide),
   (blk_list_size_rule 0xFFFFFFFF 8191 4096).1.1⟩

/-! ## C1: the inode-table walk `sqfs_find_inode`

Embedding of `sqfs_find_inode` (src/sqfs_inode.c:608-707; the u-boot copy
src/uboot/squashfs/sqfs_inode.c:23-206 walks identically).  The decoded inode
table is a byte buffer; the walk reads the base header's `inode_number`
(offset 12) of the inode at the current offset, returns that offset on a
match, and otherwise advances by the size of the inode computed from its
`inode_type` (offset 0) exactly as the C switch does.  The C returns a
pointer into the table or NULL; the embedding returns the byte offset or
`none`. -/

/-- Size in bytes of the inode found at offset `off` of the decoded inode
table, per the `switch (i.base->inode_type)` of src/sqfs_inode.c:624-703;
`none` for an unknown type. -/
def sqfs_inode_walk_size (inode_table : List Nat) (block_size off : Nat) : Option Nat :=
  match readU16 inode_table off with
  | 1 => some 32
  | 2 =>
      some (reg_inode_walk_size (readU32 inode_table (off + 20))
        (readU32 inode_table (off + 28)) block_size)
  | 8 =>
      let i_count := readU16 inode_table (off + 32)
      if i_count = 0 then some 40
      else
        some (40 + (i_count + 1) * 12 +
          ((List.range (i_count + 1)).map
            (fun l => readU32 inode_table (off + 40 + 12 * l + 8) + 1)).sum)
  | 9 =>
      some (lreg_inode_walk_size (readU32 inode_table (off + 44))
        (readU64 inode_table (off + 24)) block_size)
  | 3 => some (24 + readU32 inode_table (off + 20))
  | 10 => some (24 + readU32 inode_table (off + 20))
  | 4 => some 24
  | 5 => some 24
  | 11 => some 28
  | 12 => some 28
  | 6 => some 20
  | 7 => some 20
  | 13 => some 24
  | 14 => some 24
  | _ => none

/-- The walk loop of `sqfs_find_inode` (src/sqfs_inode.c:619-704): `k` inodes
left to visit, `off` the current byte offset into the decoded table. -/
def sqfs_find_inode_go (inode_table : List Nat) (inode_number block_size : Nat) :
    Nat → Nat → Option Nat
  | 0, _ => none
  | k + 1, off =>
      if readU32 inode_table (off + 12) = inode_number then some off
      else
        match sqfs_inode_walk_size inode_table block_size off with
        | none => none
        | some sz => sqfs_find_inode_go inode_table inode_number block_size k (off + sz)

/-- `sqfs_find_inode(inode_table, inode_number, inode_count, block_size)`
(src/sqfs_inode.c:608-707). -/
def sqfs_find_inode (inode_table : List Nat) (inode_number inode_count block_size : Nat) :
    Option Nat :=
  sqfs_find_inode_go inode_table inode_number block_size inode_count 0

/-! Encoders for format-conformant inodes, following the packed struct layouts
of src/sqfs_filesystem.h.  They build the counterexample table for C1. -/

/-- The 16-byte base inode header `struct squashfs_base_inode`. -/
def encodeInodeBase (inode_type mode uid guid mtime inode_number : Nat) : List Nat :=
  encodeU16 inode_type ++ encodeU16 mode ++ encodeU16 uid ++ encodeU16 guid ++
    encodeU32 mtime ++ encodeU32 inode_number

/-- One `struct squashfs_dir_index` record: three u32 fields then `size + 1`
name bytes (src/sqfs_filesystem.h:37-42). -/
def encodeDirIndex (index start_block size : Nat) (name : List Nat) : List Nat :=
  encodeU32 index ++ encodeU32 start_block ++ encodeU32 size ++ name

/-- A `struct squashfs_ldir_inode` with its trailing directory-index list
(src/sqfs_filesystem.h:153-168). -/
def encodeLdirInode (inode_number nlink file_size start_block parent_inode
    i_count offset xattr : Nat) (indexBytes : List Nat) : List Nat :=
  encodeInodeBase 8 0 0 0 0 inode_number ++ encodeU32 nlink ++ encodeU32 file_size ++
    encodeU32 start_block ++ encodeU32 parent_inode ++ encodeU16 i_count ++
    encodeU16 offset ++ encodeU32 xattr ++ indexBytes

/-- A `struct squashfs_reg_inode` with its trailing block list
(src/sqfs_filesystem.h:108-120). -/
def encodeRegInode (inode_number start_block fragment offset file_size : Nat)
    (block_list : List Nat) : List Nat :=
  encodeInodeBase 2 0 0 0 0 inode_number ++ encodeU32 start_block ++ encodeU32 fragment ++
    encodeU32 offset ++ encodeU32 file_size ++ (block_list.map encodeU32).flatten

/-- C1 failing input, first inode: an extended directory, inode number 1, with
`i_count = 1`, i.e. two directory-index records; the first index name is 10
bytes of `'a'` (so its `size` field is 9), the second index name is one byte
`'b'` (`size` 0).  Byte layout: 40 fixed bytes, index 0 at 40..61, index 1 at
62..74; total length 75. -/
def c1_ldir_inode : List Nat :=
  encodeLdirInode 1 2 3 0 1 1 0 0xFFFFFFFF
    (encodeDirIndex 0 0 9 [97, 97, 97, 97, 97, 97, 97, 97, 97, 97] ++
     encodeDirIndex 0 0 0 [98])

/-- C1 failing input, second inode: a basic regular file, inode number 2, no
fragment (`fragment = 0xFFFFFFFF`), `file_size` 0, hence an empty block list;
it starts at byte offset 75 of the table. -/
def c1_reg_inode : List Nat := encodeRegInode 2 96 0xFFFFFFFF 0 0 []

/-- C1 failing input: a decoded inode table holding exactly the two inodes
above, back to back, in the on-disk layout. -/
def c1_inode_table : List Nat := c1_ldir_inode ++ c1_reg_inode

/-- C1: the claim states that on a valid image `find(n)` succeeds for every
inode number `n` in `[1, superblock.inodes]`.  It fails on this valid
two-inode table: the walk reads the extended directory's per-index `size`
fields at a fixed 12-byte stride (`i.ldir->index[l].size`,
src/sqfs_inode.c:650-651), which for `l = 1` lands inside the first index
name, so the walk advances by 25004 bytes instead of 75 and
`sqfs_find_inode(table, 2, 2, 4096)` returns NULL even though inode 2 is
present (its base header sits at offset 75 with `inode_number = 2`). -/
theorem sqfs_find_inode_misparses_ldir_index :
    sqfs_find_inode c1_inode_table 2 2 4096 = none ∧
    c1_ldir_inode.length = 75 ∧
    readU16 c1_inode_table 75 = 2 ∧
    readU32 c1_inode_table (75 + 12) = 2 ∧
    sqfs_inode_walk_size c1_inode_table 4096 0 = some 25004 ∧
    c1_inode_table.length = 107 := by
  refine ⟨by decide, by decide, by decide, by decide, by decide, by decide⟩

/-! ## C3: resolving an inode's directory reference into the decoded table

Embeddings of `sqfs_read_metablock` (src/uboot/squashfs/sqfs_inode.c:208-227),
`get_metadatablk_pos` (src/uboot/squashfs/sqfs.c:307-329) and the position-list
loop of `sqfs_dir_offset` (src/uboot/squashfs/sqfs_dir.c:72-84). -/

/-- `sqfs_read_metablock` (u-boot copy): read the 2-byte header at `off`,
report the compressed bit and the payload size, rejecting sizes above 8192. -/
def sqfs_read_metablock (tbl : List Nat) (off : Nat) : Option (Bool × Nat) :=
  if DATA_SIZE (readU16 tbl off) > SQFS_METADATA_BLOCK_SIZE then none
  else some (IS_COMPRESSED (readU16 tbl off), DATA_SIZE (readU16 tbl off))

/-- Loop body of `get_metadatablk_pos`: `j` blocks left, `cur` the running
`cur_size`; each step reads the header at `off + cur`, advances `cur` by
`data_size + SQFS_HEADER_SIZE` and records the advanced `cur`. -/
def get_metadatablk_pos_go (tbl : List Nat) (off : Nat) : Nat → Nat → Option (List Nat)
  | 0, _ => some []
  | j + 1, cur =>
      match sqfs_read_metablock tbl (off + cur) with
      | none => none
      | some (_, ds) =>
          (get_metadatablk_pos_go tbl off j (cur + ds + 2)).map
            (fun rest => (cur + ds + 2) :: rest)

/-- `get_metadatablk_pos(pos_list, table, offset, metablks_count)`
(src/uboot/squashfs/sqfs.c:307-329); returns the filled `pos_list`. -/
def get_metadatablk_pos (tbl : List Nat) (off metablks_count : Nat) : Option (List Nat) :=
  if metablks_count = 0 then none
  else get_metadatablk_pos_go tbl off metablks_count 0

/-- Matching loop of `sqfs_dir_offset` (src/uboot/squashfs/sqfs_dir.c:72-84):
scan `m_list`; on `m_list[j] == start_block` return
`(++j) * SQFS_METADATA_BLOCK_SIZE + offset`; after the loop, `start_block == 0`
resolves to `offset` and anything else is an invalid reference. -/
def sqfs_dir_offset_go : List Nat → Nat → Nat → Nat → Option Nat
  | [], _, start_block, offset => if start_block = 0 then some offset else none
  | m :: ms, j, start_block, offset =>
      if m = start_block then some ((j + 1) * SQFS_METADATA_BLOCK_SIZE + offset)
      else sqfs_dir_offset_go ms (j + 1) start_block offset

/-- `sqfs_dir_offset` resolution of a `(start_block, offset)` directory
reference against the per-block position list. -/
def sqfs_dir_offset (m_list : List Nat) (start_block offset : Nat) : Option Nat :=
  sqfs_dir_offset_go m_list 0 start_block offset

/-- An on-disk metadata block: compressed flag plus payload bytes. -/
structure MetaBlock where
  compressed : Bool
  payload : List Nat
deriving DecidableEq

/-- The 2-byte header word of a metadata block: low 15 bits payload length,
bit 15 set when the payload is stored uncompressed. -/
def metaHeaderWord (b : MetaBlock) : Nat :=
  b.payload.length + (if b.compressed then 0 else 32768)

/-- On-disk encoding of one metadata block: header then payload. -/
def encodeMetaBlock (b : MetaBlock) : List Nat := encodeU16 (metaHeaderWord b) ++ b.payload

/-- On-disk bytes of a table made of consecutive metadata blocks. -/
def metaTable (bs : List MetaBlock) : List Nat := (bs.map encodeMetaBlock).flatten

/-- Byte position, relative to the table start, of the header of block `i`. -/
def metaBlockPos (bs : List MetaBlock) (i : Nat) : Nat :=
  ((bs.take i).map (fun b => b.payload.length + 2)).sum

/-- The values `get_metadatablk_pos` stores, starting from running size `cur`:
entry `j` is the running size after block `j`. -/
def posListFrom (cur : Nat) : List MetaBlock → List Nat
  | [] => []
  | b :: bs => (cur + b.payload.length + 2) :: posListFrom (cur + b.payload.length + 2) bs

theorem encodeMetaBlock_length (b : MetaBlock) :
    (encodeMetaBlock b).length = b.payload.length + 2 := by
  simp [encodeMetaBlock, encodeU16]

theorem metaTable_cons (b : MetaBlock) (bs : List MetaBlock) :
    metaTable (b :: bs) = encodeMetaBlock b ++ metaTable bs := by
  simp [metaTable]

theorem metaHeaderWord_lt (b : MetaBlock) (h : b.payload.length ≤ 8192) :
    metaHeaderWord b < 65536 := by
  unfold metaHeaderWord
  split <;> omega

theorem sqfs_read_metablock_encode (A : List Nat) (b : MetaBlock) (R : List Nat)
    (hlen : b.payload.length ≤ 8192) :
    sqfs_read_metablock (A ++ (encodeMetaBlock b ++ R)) A.length =
      some (b.compressed, b.payload.length) := by
  have hw : readU16 (A ++ (encodeMetaBlock b ++ R)) A.length = metaHeaderWord b := by
    have h := readU16_append A (encodeMetaBlock b ++ R) 0
    rw [Nat.add_zero] at h
    have e : encodeMetaBlock b ++ R = encodeU16 (metaHeaderWord b) ++ (b.payload ++ R) := by
      simp [encodeMetaBlock]
    rw [h, e, readU16_encode, Nat.mod_eq_of_lt (metaHeaderWord_lt b hlen)]
  have hds : DATA_SIZE (metaHeaderWord b) = b.payload.length := by
    unfold DATA_SIZE metaHeaderWord
    split <;> omega
  have hc : IS_COMPRESSED (metaHeaderWord b) = b.compressed := by
    unfold IS_COMPRESSED metaHeaderWord
    rcases hcomp : b.compressed <;> simp <;> omega
  unfold sqfs_read_metablock
  rw [hw, hds, hc]
  rw [if_neg (by simp [SQFS_METADATA_BLOCK_SIZE]; omega)]

theorem get_metadatablk_pos_go_succ (tbl : List Nat) (off j cur : Nat) :
    get_metadatablk_pos_go tbl off (j + 1) cur =
      match sqfs_read_metablock tbl (off + cur) with
      | none => none
      | some (_, ds) =>
          (get_metadatablk_pos_go tbl off j (cur + ds + 2)).map
            (fun rest => (cur + ds + 2) :: rest) := rfl

theorem get_metadatablk_pos_go_spec (bs : List MetaBlock) :
    ∀ A : List Nat, (∀ b ∈ bs, b.payload.length ≤ 8192) →
    get_metadatablk_pos_go (A ++ metaTable bs) 0 bs.length A.length =
      some (posListFrom A.length bs) := by
  induction bs with
  | nil => intro A _; simp [get_metadatablk_pos_go, posListFrom, metaTable]
  | cons b bs ih =>
      intro A hwf
      have hb : b.payload.length ≤ 8192 := hwf b (by simp)
      have hread : sqfs_read_metablock (A ++ metaTable (b :: bs)) (0 + A.length) =
          some (b.compressed, b.payload.length) := by
        rw [Nat.zero_add, metaTable_cons]
        exact sqfs_read_metablock_encode A b (metaTable bs) hb
      have hlen2 : A.length + b.payload.length + 2 = (A ++ encodeMetaBlock b).length := by
        simp [encodeMetaBlock_length]
        omega
      have htbl : A ++ metaTable (b :: bs) = (A ++ encodeMetaBlock b) ++ metaTable bs := by
        rw [metaTable_cons, List.append_assoc]
      rw [List.length_cons, get_metadatablk_pos_go_succ, hread]
      dsimp only
      rw [hlen2, htbl, ih (A ++ encodeMetaBlock b) (fun x hx => hwf x (List.mem_cons_of_mem _ hx))]
      simp only [posListFrom]
      rw [← hlen2]
      rfl

theorem posListFrom_mem_ge (bs : List MetaBlock) :
    ∀ (cur x : Nat), x ∈ posListFrom cur bs → cur + 2 ≤ x := by
  induction bs with
  | nil => intro cur x hx; simp [posListFrom] at hx
  | cons b bs ih =>
      intro cur x hx
      simp only [posListFrom, List.mem_cons] at hx
      rcases hx with h | h
      · omega
      · have := ih (cur + b.payload.length + 2) x h
        omega

theorem posListFrom_getD_ge (bs : List MetaBlock) :
    ∀ (cur i : Nat), i < bs.length → cur + 2 ≤ (posListFrom cur bs).getD i 0 := by
  induction bs with
  | nil => intro cur i hi; simp at hi
  | cons b bs ih =>
      intro cur i hi
      cases i with
      | zero =>
          simp only [posListFrom, List.getD_cons_zero]
          omega
      | succ i =>
          have hi' : i < bs.length := by simpa using hi
          have := ih (cur + b.payload.length + 2) i hi'
          simp only [posListFrom, List.getD_cons_succ]
          omega

theorem posListFrom_getD (bs : List MetaBlock) :
    ∀ (cur i : Nat), i < bs.length →
    (posListFrom cur bs).getD i 0 = cur + metaBlockPos bs (i + 1) := by
  induction bs with
  | nil => intro cur i hi; simp at hi
  | cons b bs ih =>
      intro cur i hi
      cases i with
      | zero => simp [posListFrom, metaBlockPos]; omega
      | succ i =>
          have hi' : i < bs.length := by simpa using hi
          have := ih (cur + b.payload.length + 2) i hi'
          simp only [posListFrom, List.getD_cons_succ]
          rw [this]
          simp [metaBlockPos, List.take_succ_cons]
          omega

theorem sqfs_dir_offset_go_nil (j start_block offset : Nat) :
    sqfs_dir_offset_go [] j start_block offset =
      if start_block = 0 then some offset else none := rfl

theorem sqfs_dir_offset_go_cons (m : Nat) (ms : List Nat) (j start_block offset : Nat) :
    sqfs_dir_offset_go (m :: ms) j start_block offset =
      if m = start_block then some ((j + 1) * SQFS_METADATA_BLOCK_SIZE + offset)
      else sqfs_dir_offset_go ms (j + 1) start_block offset := rfl

theorem sqfs_dir_offset_go_zero (ms : List Nat) :
    ∀ (j offset : Nat), (∀ x ∈ ms, x ≠ 0) → sqfs_dir_offset_go ms j 0 offset = some offset := by
  induction ms with
  | nil => intro j offset _; simp [sqfs_dir_offset_go_nil]
  | cons m ms ih =>
      intro j offset h
      have hm : m ≠ 0 := h m (by simp)
      rw [sqfs_dir_offset_go_cons, if_neg hm]
      exact ih (j + 1) offset (fun x hx => h x (List.mem_cons_of_mem _ hx))

theorem sqfs_dir_offset_go_find (bs : List MetaBlock) :
    ∀ (cur j i offset : Nat), i < bs.length →
    sqfs_dir_offset_go (posListFrom cur bs) j ((posListFrom cur bs).getD i 0) offset =
      some ((j + i + 1) * SQFS_METADATA_BLOCK_SIZE + offset) := by
  induction bs with
  | nil => intro cur j i offset hi; simp at hi
  | cons b bs ih =>
      intro cur j i offset hi
      cases i with
      | zero =>
          simp only [posListFrom, List.getD_cons_zero]
          rw [sqfs_dir_offset_go_cons, if_pos rfl]
      | succ i =>
          have hi' : i < bs.length := by simpa using hi
          simp only [posListFrom, List.getD_cons_succ]
          rw [sqfs_dir_offset_go_cons]
          have hne : cur + b.payload.length + 2 ≠
              (posListFrom (cur + b.payload.length + 2) bs).getD i 0 := by
            have := posListFrom_getD_ge bs (cur + b.payload.length + 2) i hi'
            omega
          rw [if_neg hne]
          have := ih (cur + b.payload.length + 2) (j + 1) i offset hi'
          rw [this]
          have harith : j + 1 + i + 1 = j + (i + 1) + 1 := by omega
          rw [harith]

/-- C3: for every directory metadata reference `(start_block, offset)` where
`start_block` is the on-disk byte position (relative to
`directory_table_start`) of the header of block `i` of the table, the
position list built by `get_metadatablk_pos` translates the reference to the
flat decoded offset `8192 * i + offset`; `start_block` itself is neither a
decoded-byte offset nor a block index, it is matched against the scanned
header positions. -/
theorem dir_reference_resolution (bs : List MetaBlock)
    (hwf : ∀ b ∈ bs, b.payload.length ≤ 8192) (i : Nat) (hi : i < bs.length) (offset : Nat) :
    get_metadatablk_pos (metaTable bs) 0 bs.length = some (posListFrom 0 bs) ∧
    sqfs_dir_offset (posListFrom 0 bs) (metaBlockPos bs i) offset =
      some (SQFS_METADATA_BLOCK_SIZE * i + offset) := by
  constructor
  · unfold get_metadatablk_pos
    have hlen : bs.length ≠ 0 := by omega
    rw [if_neg hlen]
    have := get_metadatablk_pos_go_spec bs [] hwf
    simpa using this
  · unfold sqfs_dir_offset
    cases i with
    | zero =>
        have hz : metaBlockPos bs 0 = 0 := by simp [metaBlockPos]
        rw [hz, sqfs_dir_offset_go_zero (posListFrom 0 bs) 0 offset]
        · simp
        · intro x hx
          have := posListFrom_mem_ge bs 0 x hx
          omega
    | succ i =>
        have hi' : i < bs.length := by omega
        have hg := posListFrom_getD bs 0 i hi'
        rw [Nat.zero_add] at hg
        rw [← hg, sqfs_dir_offset_go_find bs 0 0 i offset hi']
        have harith : 0 + i + 1 = i + 1 := by omega
        rw [harith, Nat.mul_comm]

/-- Demo table for the C3 witness: two metadata blocks, payload sizes 3 and 2,
so the second block's header sits at table-relative byte 5. -/
def c3_demo : List MetaBlock := [⟨true, [7, 7, 7]⟩, ⟨false, [1, 2]⟩]

/-- C3 witness: on the two-block demo table the reference
`(start_block = 5, offset = 5)` to block 1 resolves to `8192 * 1 + 5`. -/
theorem dir_reference_resolution_witness :
    get_metadatablk_pos (metaTable c3_demo) 0 c3_demo.length = some (posListFrom 0 c3_demo) ∧
    sqfs_dir_offset (posListFrom 0 c3_demo) (metaBlockPos c3_demo 1) 5 =
      some (SQFS_METADATA_BLOCK_SIZE * 1 + 5) :=
  dir_reference_resolution c3_demo (by decide) 1 (by decide) 5

/-! ## C4 and C6: per-data-block handling of `sqfs_read`

`sqfs_read` (src/uboot/squashfs/sqfs.c:1011-1501; the diagnostic copy
`sqfs_display_entry_content`, src/sqfs_inode.c:364-418, behaves the same way)
decides once per image whether the data blocks are compressed, from the
superblock flags, and on the compressed path feeds each block to the
decompressor with the raw `block_list` word as the source length and advances
the source cursor by that raw word (src/uboot/squashfs/sqfs.c:1355, 1372,
1381-1386, 1398). -/

/-- What the reader does with one data block. -/
inductive DataBlockAction where
  /-- `sqfs_decompress(comp, datablocks[j], &dest_len, data + start + cum, &blk_sizes[j])` -/
  | decompress (src_off src_len : Nat)
  /-- uncompressed path: a `block_size`-byte window at `j * block_size` past the start -/
  | copy_raw (src_off len : Nat)
deriving DecidableEq

/-- Source cursor walk of the compressed-data path
(src/uboot/squashfs/sqfs.c:1372-1399): `cum` is `compressed_size`. -/
def sqfs_read_block_actions_go : List Nat → Nat → List DataBlockAction
  | [], _ => []
  | w :: ws, cum => .decompress cum w :: sqfs_read_block_actions_go ws (cum + w)

/-- Per-block actions taken by `sqfs_read` over the block list, the branch
chosen by `SQFS_COMPRESSED_DATA(sblk->flags)`
(src/uboot/squashfs/sqfs.c:1355-1412). -/
def sqfs_read_block_actions (flags block_size : Nat) (blk_sizes : List Nat) :
    List DataBlockAction :=
  if SQFS_COMPRESSED_DATA flags then sqfs_read_block_actions_go blk_sizes 0
  else (List.range blk_sizes.length).map (fun j => .copy_raw (j * block_size) block_size)

/-- What the spec's per-block rule (claims C4 and C6, spec §4.5 steps 1-3)
does with one data block. -/
inductive SpecBlockAction where
  | decompress (on_disk : Nat)
  | copy (on_disk : Nat)
  | zeros (len : Nat)
deriving DecidableEq

/-- The claimed per-block rule: a zero size word is a sparse block of
`block_size` zero bytes; otherwise `on_disk = w & 0xFFFFFF` bytes are read and
decompressed if and only if bit 24 of `w` is clear. -/
def spec_block_action (block_size w : Nat) : SpecBlockAction :=
  if w = 0 then .zeros block_size
  else if SQFS_COMPRESSED_BLOCK w then .decompress (SQFS_BLOCK_SIZE w)
  else .copy (SQFS_BLOCK_SIZE w)

/-- C4: the claim states each data block is decompressed if and only if bit 24
of its own `block_sizes[i]` word is clear, with `block_sizes[i] & 0xFFFFFF`
bytes read from disk.  The code instead decides from the global superblock
flag and consumes the raw word: with `flags = 0` (compressed-data image) a
block word `0x1000064` (bit 24 set, masked size 100) is sent to the
decompressor with source length `0x1000064`, where the claim requires a plain
copy of 100 bytes; with `flags = 2` (uncompressed-data image) a block word
`100` (bit 24 clear) is copied raw, where the claim requires decompression. -/
theorem data_block_compression_decided_globally :
    sqfs_read_block_actions 0 4096 [16777316] = [.decompress 0 16777316] ∧
    spec_block_action 4096 16777316 = .copy 100 ∧
    sqfs_read_block_actions 2 4096 [100] = [.copy_raw 0 4096] ∧
    spec_block_action 4096 100 = .decompress 100 := by
  refine ⟨by decide, by decide, by decide, by decide⟩

/-- C6: the claim states a zero `block_sizes[i]` word yields `block_size` zero
bytes without reading or decompressing.  Neither path of the code has a sparse
case: the compressed path hands the block to the decompressor with source
length 0, and the uncompressed path copies `block_size` bytes from the data
area. -/
theorem sparse_block_not_handled :
    sqfs_read_block_actions 0 4096 [0] = [.decompress 0 0] ∧
    sqfs_read_block_actions 2 4096 [0] = [.copy_raw 0 4096] ∧
    spec_block_action 4096 0 = .zeros 4096 := by
  refine ⟨by decide, by decide, by decide⟩

/-! ## C5 and C7: the byte-emission loops of `sqfs_read`

The output buffer is modelled as a function `Nat → Nat` updated pointwise, as
the C `memcpy(buf + ..., ..., 1)` calls do, and `actread` as the running
count `*actread`. -/

/-- Pointwise buffer write. -/
def bufUpdate (buf : Nat → Nat) (i v : Nat) : Nat → Nat :=
  fun n => if n = i then v else buf n

/-- Inner copy loop over one decompressed data block
(src/uboot/squashfs/sqfs.c:1403-1411): for each byte of the block, stop when
`*actread == finfo.size`, else `memcpy(buf + offset + (*actread)++, ...)`. -/
def sqfs_read_emit_block (offset size : Nat) :
    List Nat → ((Nat → Nat) × Nat) → ((Nat → Nat) × Nat)
  | [], s => s
  | x :: xs, (buf, actread) =>
      if actread = size then (buf, actread)
      else sqfs_read_emit_block offset size xs (bufUpdate buf (offset + actread) x, actread + 1)

/-- Outer loop over the decompressed data blocks
(src/uboot/squashfs/sqfs.c:1402-1411). -/
def sqfs_read_emit_blocks (offset size : Nat) (blocks : List (List Nat))
    (s : (Nat → Nat) × Nat) : ((Nat → Nat) × Nat) :=
  blocks.foldl (fun s b => sqfs_read_emit_block offset size b s) s

/-- Fragment copy loop (src/uboot/squashfs/sqfs.c:1472-1475 and 1483-1486):
`for (j = offset + *actread; j < finfo.size; j++)
   memcpy(buf + j, &fragment_block[*finfo.offset + j], 1); (*actread)++;`
implemented by counting the `size - (offset + actread)` iterations with `j`
the running loop index. -/
def sqfs_read_emit_fragment_go (frag : Nat → Nat) (finfo_offset : Nat) :
    Nat → Nat → (Nat → Nat) → Nat → ((Nat → Nat) × Nat)
  | 0, _, buf, actread => (buf, actread)
  | n + 1, j, buf, actread =>
      sqfs_read_emit_fragment_go frag finfo_offset n (j + 1)
        (bufUpdate buf j (frag (finfo_offset + j))) (actread + 1)

/-- The fragment emission of `sqfs_read`, starting from buffer/count state `s`. -/
def sqfs_read_emit_fragment (offset size finfo_offset : Nat) (frag : Nat → Nat)
    (s : (Nat → Nat) × Nat) : ((Nat → Nat) × Nat) :=
  sqfs_read_emit_fragment_go frag finfo_offset (size - (offset + s.2)) (offset + s.2) s.1 s.2

/-- The ranged-read semantics the claim states (spec §8 invariant 5): the
`len` bytes of the full file content starting at position `offset`. -/
def spec_ranged_read (content : List Nat) (offset len : Nat) : List Nat :=
  (content.drop offset).take len

/-- The fragment-tail window the claim states (spec §4.5): bytes
`inode.offset .. inode.offset + tail_len - 1` of the fragment block. -/
def spec_fragment_tail (frag : Nat → Nat) (inode_offset tail_len : Nat) : List Nat :=
  (List.range tail_len).map (fun j => frag (inode_offset + j))

/-- The 13 bytes of `Hello, world!` (spec §8, scenario A). -/
def hello_bytes : List Nat := [72, 101, 108, 108, 111, 44, 32, 119, 111, 114, 108, 100, 33]

/-- `hello_bytes` padded to one 4096-byte data block. -/
def hello_block : List Nat := hello_bytes ++ List.replicate 4083 0

/-- C5 failing input: `block_size = 8`, a 10-byte file whose first 8 bytes
`ABCDEFGH` fill one data block and whose 2-byte tail `IJ` sits at offset 0 of
the fragment block; bytes 8 and 9 of the fragment block (88 = `X`, 89 = `Y`)
belong to other files' tails. -/
def c5_datablock : List Nat := [65, 66, 67, 68, 69, 70, 71, 72]

/-- The fragment block for the C5 failing input. -/
def c5_fragment_block : Nat → Nat :=
  fun k => [73, 74, 0, 0, 0, 0, 0, 0, 88, 89].getD k 0

/-- C5: the claim states the fragment pass emits bytes
`inode.offset .. inode.offset + (file_size mod block_size)` of the fragment
block.  On a full read (`offset = 0`, `size = 10`) of the 10-byte file above,
the code has already produced 8 data-block bytes, and its fragment loop
indexes the fragment block with the absolute output position `j`
(`fragment_block[*finfo.offset + j]`, src/uboot/squashfs/sqfs.c:1473 and
1484), so it emits fragment bytes 8 and 9 (`X`, `Y`) instead of the file's
actual tail at bytes 0 and 1 (`I`, `J`) as the claim requires. -/
theorem fragment_window_shifted :
    (sqfs_read_emit_blocks 0 10 [c5_datablock] ((fun _ => 0), 0)).2 = 8 ∧
    (sqfs_read_emit_fragment 0 10 0 c5_fragment_block
      (sqfs_read_emit_blocks 0 10 [c5_datablock] ((fun _ => 0), 0))).2 = 10 ∧
    (sqfs_read_emit_fragment 0 10 0 c5_fragment_block
      (sqfs_read_emit_blocks 0 10 [c5_datablock] ((fun _ => 0), 0))).1 8 = 88 ∧
    (sqfs_read_emit_fragment 0 10 0 c5_fragment_block
      (sqfs_read_emit_blocks 0 10 [c5_datablock] ((fun _ => 0), 0))).1 9 = 89 ∧
    spec_fragment_tail c5_fragment_block 0 2 = [73, 74] := by
  refine ⟨by decide, by decide, by decide, by decide, by decide⟩

/-- C7: the claim states `read("/hello.txt", 7, 5, sink)` delivers the bytes
at file positions 7..11, i.e. `world`.  In `sqfs_read` the requested `offset`
is used as a destination-buffer offset, never to skip file content: with the
13-byte file stored as a fragment (`datablk_count = 0`), the fragment loop
`for (j = offset + *actread; j < finfo.size; j++)` starts at `j = 7` with
`finfo.size = len = 5` and runs zero iterations, so 0 bytes are written; and
were the file stored as a data block instead, the code would copy the FIRST
5 bytes `Hello` to `buf + 7`.  Either way the sink never receives `world`. -/
theorem partial_read_reads_wrong_window :
    (sqfs_read_emit_fragment 7 5 0 (fun k => hello_bytes.getD k 0) ((fun _ => 0), 0)).2 = 0 ∧
    (sqfs_read_emit_blocks 7 5 [hello_block] ((fun _ => 0), 0)).2 = 5 ∧
    (sqfs_read_emit_blocks 7 5 [hello_block] ((fun _ => 0), 0)).1 7 = 72 ∧
    (sqfs_read_emit_blocks 7 5 [hello_block] ((fun _ => 0), 0)).1 11 = 111 ∧
    spec_ranged_read hello_bytes 7 5 = [119, 111, 114, 108, 100] := by
  refine ⟨by decide, by decide, by decide, by decide, by decide⟩

/-! ## C8: `sqfs_probe` -/

/-- `sqfs_probe` (src/uboot/squashfs/sqfs.c:984-1009): the underlying
`disk_read` of the first sector either fails (`none`) or yields the superblock
bytes; a failed read returns -1, a magic mismatch returns -1, a match 0. -/
def sqfs_probe (read_result : Option (List Nat)) : Int :=
  match read_result with
  | none => -1
  | some buffer => if readU32 buffer 0 ≠ SQFS_MAGIC_NUMBER then -1 else 0

/-- C8: `probe` returns Ok (0) if and only if the read succeeded and the
32-bit magic field at offset 0 of the superblock equals `0x73717368`; any
other magic value gives the nonzero failure -1 (`BadMagic`), and an
underlying read failure gives -1 (`IoError`). -/
theorem probe_ok_iff_magic (r : Option (List Nat)) :
    (sqfs_probe r = 0 ↔ ∃ b, r = some b ∧ readU32 b 0 = SQFS_MAGIC_NUMBER) ∧
    (∀ b, r = some b → readU32 b 0 ≠ SQFS_MAGIC_NUMBER → sqfs_probe r = -1 ∧ (-1 : Int) ≠ 0) ∧
    (r = none → sqfs_probe r = -1) := by
  refine ⟨?_, ?_, ?_⟩
  · constructor
    · intro h
      match r with
      | none => simp [sqfs_probe] at h
      | some b =>
          refine ⟨b, rfl, ?_⟩
          by_contra hm
          simp [sqfs_probe, hm] at h
    · rintro ⟨b, rfl, hm⟩
      simp [sqfs_probe, hm]
  · rintro b rfl hm
    exact ⟨by simp [sqfs_probe, hm], by decide⟩
  · rintro rfl
    rfl

/-- A 96-byte buffer starting with the little-endian magic `hsqs`. -/
def good_superblock : List Nat := [0x68, 0x73, 0x71, 0x73] ++ List.replicate 92 0

/-- C8 witness: the magic buffer probes Ok, an all-zero buffer and a failed
read probe as -1. -/
theorem probe_ok_iff_magic_witness :
    sqfs_probe (some good_superblock) = 0 ∧
    sqfs_probe (some (List.replicate 96 0)) = -1 ∧
    sqfs_probe none = -1 :=
  ⟨(probe_ok_iff_magic (some good_superblock)).1.mpr ⟨good_superblock, rfl, by decide⟩,
   ((probe_ok_iff_magic (some (List.replicate 96 0))).2.1 _ rfl (by decide)).1,
   (probe_ok_iff_magic none).2.2 rfl⟩

/-! ## C10: `sqfs_frag_lookup` error codes become the compressed flag

`sqfs_frag_lookup` (src/sqfs_inode.c:52-122) is declared `bool` but returns
`errno` when the allocation of the entry buffer fails and the
`sqfs_decompress` return code when decompressing the fragment metadata block
fails; any nonzero int converts to `true`.  Its caller
`sqfs_display_entry_content` (src/sqfs_inode.c:277-289, 308-315) assigns the
result to its local `compressed` flag and keeps streaming. -/

/-- The inputs `sqfs_frag_lookup` branches on: the metadata-block header's
compressed bit, whether `malloc` succeeded, the `errno` value, the
decompression outcome (error code or the decoded fragment-entry size words),
the entry words when the block is stored uncompressed, and the entry index. -/
structure FragLookupEnv where
  header_compressed : Bool
  alloc_ok : Bool
  errno : Int
  decomp : Except Int (List Nat)
  uncompressed_entries : List Nat
  offset : Nat

/-- C's implicit int-to-bool conversion: nonzero is true. -/
def cbool (i : Int) : Bool := i ≠ 0

/-- `sqfs_frag_lookup` as its callers observe it (src/sqfs_inode.c:52-122):
`return errno` on allocation failure, `return ret` on decompression failure,
else `return COMPRESSED_FRAGMENT_BLOCK(e->size)`. -/
def sqfs_frag_lookup (env : FragLookupEnv) : Bool :=
  if env.header_compressed then
    if env.alloc_ok then
      match env.decomp with
      | .error ret => cbool ret
      | .ok entries => COMPRESSED_FRAGMENT_BLOCK (entries.getD env.offset 0)
    else cbool env.errno
  else COMPRESSED_FRAGMENT_BLOCK (env.uncompressed_entries.getD env.offset 0)

/-- Which way the caller then handles the fragment block. -/
inductive FragmentPath where
  | decompress_fragment
  | copy_fragment
deriving DecidableEq

/-- The caller's use of the result (src/sqfs_inode.c:282-284 with 421-447):
`compressed = sqfs_frag_lookup(...)` is only ever consulted to pick the
fragment handling path; no error is detected or propagated. -/
def display_entry_fragment_path (env : FragLookupEnv) : FragmentPath :=
  if sqfs_frag_lookup env then .decompress_fragment else .copy_fragment

/-- C10: whenever decompression of the fragment metadata block fails with a
nonzero code (env), or the entry-buffer allocation fails with a nonzero
`errno` (env2), `sqfs_frag_lookup` returns that code through its `bool`
result, which reads as `true`; the caller takes it as "the fragment block is
compressed" and continues streaming on the decompress-fragment path, so the
failure is never surfaced as an error. -/
theorem frag_lookup_error_reported_as_compressed (env env2 : FragLookupEnv) (ret : Int)
    (hc : env.header_compressed = true) (ha : env.alloc_ok = true)
    (hd : env.decomp = .error ret) (h0 : ret ≠ 0)
    (hc2 : env2.header_compressed = true) (ha2 : env2.alloc_ok = false)
    (h02 : env2.errno ≠ 0) :
    (sqfs_frag_lookup env = true ∧ display_entry_fragment_path env = .decompress_fragment) ∧
    (sqfs_frag_lookup env2 = true ∧ display_entry_fragment_path env2 = .decompress_fragment) := by
  have h1 : sqfs_frag_lookup env = true := by
    simp [sqfs_frag_lookup, hc, ha, hd, cbool, h0]
  have h2 : sqfs_frag_lookup env2 = true := by
    simp [sqfs_frag_lookup, hc2, ha2, cbool, h02]
  exact ⟨⟨h1, by simp [display_entry_fragment_path, h1]⟩,
         ⟨h2, by simp [display_entry_fragment_path, h2]⟩⟩

/-- C10 witness: a failing decompression (`Z_BUF_ERROR = -5`) and a failing
allocation (`errno = 12`) both read back as "compressed fragment block". -/
theorem frag_lookup_error_reported_as_compressed_witness :
    (sqfs_frag_lookup ⟨true, true, 0, .error (-5), [], 0⟩ = true ∧
      display_entry_fragment_path ⟨true, true, 0, .error (-5), [], 0⟩ = .decompress_fragment) ∧
    (sqfs_frag_lookup ⟨true, false, 12, .ok [], [], 0⟩ = true ∧
      display_entry_fragment_path ⟨true, false, 12, .ok [], [], 0⟩ = .decompress_fragment) :=
  frag_lookup_error_reported_as_compressed
    ⟨true, true, 0, .error (-5), [], 0⟩ ⟨true, false, 12, .ok [], [], 0⟩ (-5)
    rfl rfl rfl (by decide) rfl rfl (by decide)

/-! ## C9: `sqfs_readdir` determinism and on-disk entry order

Embedding of `sqfs_readdir` (src/uboot/squashfs/sqfs.c:882-982) over the
decoded directory table.  The stream state mirrors `struct squashfs_dir_stream`
(src/uboot/squashfs/sqfs_filesystem.h:242-258): `entry` is the byte offset of
the next entry into the decoded table (a pointer in C), `entry_count` the
entries left in the current header's chunk, `size` the remaining byte budget
(a C `int`).  The C function fills `*dentp` and returns `dirs->size > 0`;
returning 0 — from the size guard, from an unknown entry type
(`SQFS_STOP_READDIR`), or as the continue flag — ends the caller's
`while (sqfs_readdir(...))` loop, which consumes an entry only when the
returned flag was nonzero.  The per-entry `dent` size lookup into the inode
table (sqfs.c:895-917) does not affect which entries are produced or their
order and is not modelled. -/

/-- What an emitted directory entry carries from the directory table: the
entry's `type` field and its name bytes. -/
structure SqfsDirent where
  etype : Nat
  name : List Nat
deriving DecidableEq

/-- The mutable fields of `struct squashfs_dir_stream` that drive the walk. -/
structure SqfsDirStream where
  entry : Nat
  entry_count : Int
  size : Int
deriving DecidableEq

/-- One `sqfs_readdir` call: `none` when no entry is consumed (size guard or
unknown type), otherwise the entry, the successor state, and the returned
continue flag `dirs->size > 0`. -/
def sqfs_readdir (tbl : List Nat) (d : SqfsDirStream) :
    Option (SqfsDirent × SqfsDirStream × Bool) :=
  if d.size < 12 then none
  else if readU16 tbl (d.entry + 4) < 1 ∨ 14 < readU16 tbl (d.entry + 4) then none
  else
    let name_size := readU16 tbl (d.entry + 6)
    let dent : SqfsDirent :=
      ⟨readU16 tbl (d.entry + 4),
       (List.range (name_size + 1)).map (fun l => byteAt tbl (d.entry + 8 + l))⟩
    let offset := name_size + 1 + 8
    let size := d.size - (offset : Int)
    if d.entry_count - 1 = 0 then
      if size - 12 > 3 then
        some (dent,
          ⟨d.entry + offset + 12, (readU32 tbl (d.entry + offset) : Int) + 1, size - 12⟩,
          decide (0 < size - 12))
      else
        some (dent, ⟨d.entry, 0, size - 12⟩, decide (0 < size - 12))
    else
      some (dent, ⟨d.entry + offset, d.entry_count - 1, size⟩, decide (0 < size))

/-- The caller loop `while (sqfs_readdir(dirsp, &dentp)) { ... }`
(src/uboot/squashfs/sqfs.c:1150, 1540): entries collected in order; an entry
is kept only when the call returned a nonzero flag. -/
def sqfs_readdir_run (tbl : List Nat) : Nat → SqfsDirStream → List SqfsDirent
  | 0, _ => []
  | fuel + 1, d =>
      match sqfs_readdir tbl d with
      | none => []
      | some (dent, d', cont) => if cont then dent :: sqfs_readdir_run tbl fuel d' else []

theorem sqfs_readdir_run_succ (tbl : List Nat) (fuel : Nat) (d : SqfsDirStream) :
    sqfs_readdir_run tbl (fuel + 1) d =
      match sqfs_readdir tbl d with
      | none => []
      | some (dent, d', cont) =>
          if cont then dent :: sqfs_readdir_run tbl fuel d' else [] := rfl

/-- Stream state the callers build before the first `sqfs_readdir` call
(src/uboot/squashfs/sqfs.c:1140-1147 and 1524-1533): `entry` just past the
first 12-byte header, `entry_count = dir_header->count + 1`, `size` the
directory inode's `file_size`. -/
def sqfs_dirstream_init (tbl : List Nat) (file_size : Int) : SqfsDirStream :=
  ⟨12, (readU32 tbl 0 : Int) + 1, file_size⟩

/-- One entry of the on-disk directory table
(`struct squashfs_directory_entry`, src/uboot/squashfs/sqfs_filesystem.h:221-227). -/
structure DirTableEntry where
  eoffset : Nat
  inode_offset : Nat
  etype : Nat
  name : List Nat
deriving DecidableEq

/-- One `(header, entries)` chunk of the directory table
(`struct squashfs_directory_header`, src/uboot/squashfs/sqfs_filesystem.h:229-233);
the header's `count` field is one less than the number of entries. -/
structure DirChunk where
  start : Nat
  inode_number : Nat
  entries : List DirTableEntry
deriving DecidableEq

/-- On-disk bytes of one directory entry: four u16 fields (`offset`,
`inode_offset`, `type`, `name_size = len(name) - 1`) then the name. -/
def encodeDirEntry (e : DirTableEntry) : List Nat :=
  encodeU16 e.eoffset ++ encodeU16 e.inode_offset ++ encodeU16 e.etype ++
    encodeU16 (e.name.length - 1) ++ e.name

/-- On-disk bytes of one chunk: 12-byte header (`count`, `start`,
`inode_number`) then the entries. -/
def encodeDirChunk (c : DirChunk) : List Nat :=
  encodeU32 (c.entries.length - 1) ++ encodeU32 c.start ++ encodeU32 c.inode_number ++
    (c.entries.map encodeDirEntry).flatten

/-- The decoded directory listing of one directory: its chunks back to back. -/
def dirListing (cs : List DirChunk) : List Nat := (cs.map encodeDirChunk).flatten

/-- Byte size of one encoded entry (`SQFS_ENTRY_BASE_LENGTH + name_size + 1`). -/
def dirEntryBytes (e : DirTableEntry) : Nat := 8 + e.name.length

/-- Total byte size of a chunk's entries. -/
def chunkEntriesBytes (c : DirChunk) : Nat := (c.entries.map dirEntryBytes).sum

/-- The directory inode's `file_size` for this listing: total listing bytes
plus the 3-byte stub (spec §3). -/
def dirFileSize (cs : List DirChunk) : Nat :=
  3 + (cs.map (fun c => 12 + chunkEntriesBytes c)).sum

/-- The entries of the listing in on-disk order. -/
def dirTableDirents (cs : List DirChunk) : List SqfsDirent :=
  (cs.map (fun c => c.entries.map
    (fun e => (⟨e.etype, e.name⟩ : SqfsDirent)))).flatten

/-- Total number of entries of the listing. -/
def dirTotalEntries (cs : List DirChunk) : Nat := (cs.map (fun c => c.entries.length)).sum

/-- Well-formed on-disk entry: nonempty name whose `name_size` fits a u16 and
a known basic/extended type code 1..14. -/
def WfDirEntry (e : DirTableEntry) : Prop :=
  1 ≤ e.name.length ∧ e.name.length ≤ 65536 ∧ 1 ≤ e.etype ∧ e.etype ≤ 14

/-- Well-formed chunk: at least one entry, header count fits a u32. -/
def WfDirChunk (c : DirChunk) : Prop :=
  c.entries ≠ [] ∧ c.entries.length ≤ 4294967296 ∧ ∀ e ∈ c.entries, WfDirEntry e

/-- Well-formed listing. -/
def WfDirListing (cs : List DirChunk) : Prop := ∀ c ∈ cs, WfDirChunk c

instance (e : DirTableEntry) : Decidable (WfDirEntry e) := by
  unfold WfDirEntry; infer_instance

instance (c : DirChunk) : Decidable (WfDirChunk c) := by
  unfold WfDirChunk; infer_instance

instance (cs : List DirChunk) : Decidable (WfDirListing cs) := by
  unfold WfDirListing; infer_instance

theorem encodeDirEntry_length (e : DirTableEntry) :
    (encodeDirEntry e).length = 8 + e.name.length := by
  simp [encodeDirEntry, encodeU16]
  omega

theorem range_map_getD (nm : List Nat) (f : Nat → Nat)
    (h : ∀ l, l < nm.length → f l = nm.getD l 0) :
    (List.range nm.length).map f = nm := by
  induction nm generalizing f with
  | nil => simp
  | cons x xs ih =>
      rw [List.length_cons, List.range_succ_eq_map, List.map_cons, List.map_map]
      have h0 : f 0 = x := by simpa using h 0 (by simp)
      rw [h0]
      congr 1
      apply ih
      intro l hl
      have := h (l + 1) (by simp; omega)
      simpa using this

theorem dirEntry_reads (A R : List Nat) (e : DirTableEntry)
    (h1 : 1 ≤ e.name.length) (h2 : e.name.length ≤ 65536) (ht : e.etype ≤ 65535) :
    readU16 (A ++ (encodeDirEntry e ++ R)) (A.length + 4) = e.etype ∧
    readU16 (A ++ (encodeDirEntry e ++ R)) (A.length + 6) = e.name.length - 1 ∧
    (List.range (e.name.length - 1 + 1)).map
      (fun l => byteAt (A ++ (encodeDirEntry e ++ R)) (A.length + 8 + l)) = e.name := by
  have hass4 : A ++ (encodeDirEntry e ++ R) =
      (A ++ encodeU16 e.eoffset ++ encodeU16 e.inode_offset) ++
        (encodeU16 e.etype ++ (encodeU16 (e.name.length - 1) ++ (e.name ++ R))) := by
    simp [encodeDirEntry, List.append_assoc]
  have hlen4 : (A ++ encodeU16 e.eoffset ++ encodeU16 e.inode_offset).length = A.length + 4 := by
    simp [encodeU16_length]
  have hass6 : A ++ (encodeDirEntry e ++ R) =
      (A ++ encodeU16 e.eoffset ++ encodeU16 e.inode_offset ++ encodeU16 e.etype) ++
        (encodeU16 (e.name.length - 1) ++ (e.name ++ R)) := by
    simp [encodeDirEntry, List.append_assoc]
  have hlen6 : (A ++ encodeU16 e.eoffset ++ encodeU16 e.inode_offset ++
      encodeU16 e.etype).length = A.length + 6 := by
    simp [encodeU16_length]
  have hass8 : A ++ (encodeDirEntry e ++ R) =
      (A ++ encodeU16 e.eoffset ++ encodeU16 e.inode_offset ++ encodeU16 e.etype ++
        encodeU16 (e.name.length - 1)) ++ (e.name ++ R) := by
    simp [encodeDirEntry, List.append_assoc]
  have hlen8 : (A ++ encodeU16 e.eoffset ++ encodeU16 e.inode_offset ++ encodeU16 e.etype ++
      encodeU16 (e.name.length - 1)).length = A.length + 8 := by
    simp [encodeU16_length]
  refine ⟨?_, ?_, ?_⟩
  · have h := readU16_append
      (A ++ encodeU16 e.eoffset ++ encodeU16 e.inode_offset)
      (encodeU16 e.etype ++ (encodeU16 (e.name.length - 1) ++ (e.name ++ R))) 0
    rw [hlen4, Nat.add_zero] at h
    rw [hass4, h, readU16_encode]
    omega
  · have h := readU16_append
      (A ++ encodeU16 e.eoffset ++ encodeU16 e.inode_offset ++ encodeU16 e.etype)
      (encodeU16 (e.name.length - 1) ++ (e.name ++ R)) 0
    rw [hlen6, Nat.add_zero] at h
    rw [hass6, h, readU16_encode]
    omega
  · have hL : e.name.length - 1 + 1 = e.name.length := by omega
    rw [hL]
    apply range_map_getD
    intro l hl
    have hb := byteAt_append
      (A ++ encodeU16 e.eoffset ++ encodeU16 e.inode_offset ++ encodeU16 e.etype ++
        encodeU16 (e.name.length - 1)) (e.name ++ R) l
    rw [hlen8] at hb
    rw [hass8, hb, byteAt_append_lt e.name R l hl]
    rfl

theorem sqfs_readdir_eq_mid (tbl : List Nat) (p : Nat) (ec sz : Int)
    (h12 : ¬ sz < 12)
    (htype : ¬ (readU16 tbl (p + 4) < 1 ∨ 14 < readU16 tbl (p + 4)))
    (hec : ¬ ec - 1 = 0) :
    sqfs_readdir tbl ⟨p, ec, sz⟩ =
      some (⟨readU16 tbl (p + 4),
             (List.range (readU16 tbl (p + 6) + 1)).map (fun l => byteAt tbl (p + 8 + l))⟩,
            ⟨p + (readU16 tbl (p + 6) + 1 + 8), ec - 1,
             sz - ((readU16 tbl (p + 6) + 1 + 8 : Nat) : Int)⟩,
            decide (0 < sz - ((readU16 tbl (p + 6) + 1 + 8 : Nat) : Int))) := by
  simp only [sqfs_readdir]
  rw [if_neg h12, if_neg htype, if_neg hec]

theorem sqfs_readdir_eq_newheader (tbl : List Nat) (p : Nat) (ec sz : Int)
    (h12 : ¬ sz < 12)
    (htype : ¬ (readU16 tbl (p + 4) < 1 ∨ 14 < readU16 tbl (p + 4)))
    (hec : ec - 1 = 0)
    (h3 : sz - ((readU16 tbl (p + 6) + 1 + 8 : Nat) : Int) - 12 > 3) :
    sqfs_readdir tbl ⟨p, ec, sz⟩ =
      some (⟨readU16 tbl (p + 4),
             (List.range (readU16 tbl (p + 6) + 1)).map (fun l => byteAt tbl (p + 8 + l))⟩,
            ⟨p + (readU16 tbl (p + 6) + 1 + 8) + 12,
             (readU32 tbl (p + (readU16 tbl (p + 6) + 1 + 8)) : Int) + 1,
             sz - ((readU16 tbl (p + 6) + 1 + 8 : Nat) : Int) - 12⟩,
            decide (0 < sz - ((readU16 tbl (p + 6) + 1 + 8 : Nat) : Int) - 12)) := by
  simp only [sqfs_readdir]
  rw [if_neg h12, if_neg htype, if_pos hec, if_pos h3]

theorem sqfs_readdir_eq_laststop (tbl : List Nat) (p : Nat) (ec sz : Int)
    (h12 : ¬ sz < 12)
    (htype : ¬ (readU16 tbl (p + 4) < 1 ∨ 14 < readU16 tbl (p + 4)))
    (hec : ec - 1 = 0)
    (h3 : ¬ sz - ((readU16 tbl (p + 6) + 1 + 8 : Nat) : Int) - 12 > 3) :
    sqfs_readdir tbl ⟨p, ec, sz⟩ =
      some (⟨readU16 tbl (p + 4),
             (List.range (readU16 tbl (p + 6) + 1)).map (fun l => byteAt tbl (p + 8 + l))⟩,
            ⟨p, 0, sz - ((readU16 tbl (p + 6) + 1 + 8 : Nat) : Int) - 12⟩,
            decide (0 < sz - ((readU16 tbl (p + 6) + 1 + 8 : Nat) : Int) - 12)) := by
  simp only [sqfs_readdir]
  rw [if_neg h12, if_neg htype, if_pos hec, if_neg h3]

theorem sqfs_readdir_run_step (tbl : List Nat) (fuel : Nat) (d : SqfsDirStream)
    (dent : SqfsDirent) (d' : SqfsDirStream) (cont : Bool)
    (h : sqfs_readdir tbl d = some (dent, d', cont)) :
    sqfs_readdir_run tbl (fuel + 1) d =
      if cont then dent :: sqfs_readdir_run tbl fuel d' else [] := by
  rw [sqfs_readdir_run_succ, h]

theorem sqfs_readdir_run_none (tbl : List Nat) (fuel : Nat) (d : SqfsDirStream)
    (h : sqfs_readdir tbl d = none) :
    sqfs_readdir_run tbl (fuel + 1) d = [] := by
  rw [sqfs_readdir_run_succ, h]

theorem readdir_run_chunks :
    ∀ (fuel : Nat) (e : DirTableEntry) (es : List DirTableEntry) (cs : List DirChunk)
      (A tbl : List Nat),
      tbl = A ++ (encodeDirEntry e ++ ((es.map encodeDirEntry).flatten ++ dirListing cs)) →
      WfDirEntry e → (∀ x ∈ es, WfDirEntry x) → WfDirListing cs →
      es.length + dirTotalEntries cs + 2 ≤ fuel →
      sqfs_readdir_run tbl fuel
        ⟨A.length, (es.length : Int) + 1,
         ((15 + dirEntryBytes e + (es.map dirEntryBytes).sum +
           (cs.map (fun c => 12 + chunkEntriesBytes c)).sum : Nat) : Int)⟩ =
      (⟨e.etype, e.name⟩ : SqfsDirent) ::
        (es.map (fun x => (⟨x.etype, x.name⟩ : SqfsDirent)) ++ dirTableDirents cs) := by
  intro fuel
  induction fuel with
  | zero => intro e es cs A tbl _ _ _ _ hf; omega
  | succ fuel ih =>
      intro e es cs A tbl htbl hwe hwes hwcs hf
      obtain ⟨hL1, hL2, ht1, ht14⟩ := hwe
      obtain ⟨hE4, hE6, hEN⟩ := dirEntry_reads A
        ((es.map encodeDirEntry).flatten ++ dirListing cs) e hL1 hL2 (by omega)
      rw [← htbl] at hE4 hE6 hEN
      have hL : e.name.length - 1 + 1 = e.name.length := by omega
      rw [hL] at hEN
      have hEB : dirEntryBytes e = 8 + e.name.length := rfl
      have htype : ¬ (readU16 tbl (A.length + 4) < 1 ∨ 14 < readU16 tbl (A.length + 4)) := by
        rw [hE4]; omega
      have hA' : A.length + (e.name.length + 8) = (A ++ encodeDirEntry e).length := by
        simp only [List.length_append, encodeDirEntry_length]; omega
      cases es with
      | cons x es' =>
          simp only [List.length_cons, List.map_cons, List.sum_cons]
          have h12 : ¬ (((15 + dirEntryBytes e +
              (dirEntryBytes x + (es'.map dirEntryBytes).sum) +
              (cs.map (fun c => 12 + chunkEntriesBytes c)).sum : Nat) : Int) < 12) := by
            omega
          have hec : ¬ ((((es'.length + 1 : Nat) : Int) + 1) - 1 = 0) := by omega
          rw [sqfs_readdir_run_step tbl fuel _ _ _ _
            (sqfs_readdir_eq_mid tbl A.length _ _ h12 htype hec)]
          rw [hE4, hE6, hL, hEN]
          have hc : (0 : Int) < ((15 + dirEntryBytes e +
              (dirEntryBytes x + (es'.map dirEntryBytes).sum) +
              (cs.map (fun c => 12 + chunkEntriesBytes c)).sum : Nat) : Int) -
              ((e.name.length + 8 : Nat) : Int) := by
            omega
          rw [decide_eq_true hc, if_pos rfl]
          rw [hA']
          have hec2 : (((es'.length + 1 : Nat) : Int) + 1) - 1 = ((es'.length : Nat) : Int) + 1 := by
            omega
          rw [hec2]
          have hsz : ((15 + dirEntryBytes e +
              (dirEntryBytes x + (es'.map dirEntryBytes).sum) +
              (cs.map (fun c => 12 + chunkEntriesBytes c)).sum : Nat) : Int) -
              ((e.name.length + 8 : Nat) : Int) =
              ((15 + dirEntryBytes x + (es'.map dirEntryBytes).sum +
                (cs.map (fun c => 12 + chunkEntriesBytes c)).sum : Nat) : Int) := by
            omega
          rw [hsz]
          have htbl' : tbl = (A ++ encodeDirEntry e) ++
              (encodeDirEntry x ++ ((es'.map encodeDirEntry).flatten ++ dirListing cs)) := by
            rw [htbl]; simp [List.append_assoc]
          have hwx : WfDirEntry x := hwes x (by simp)
          have hwes' : ∀ y ∈ es', WfDirEntry y := fun y hy => hwes y (by simp [hy])
          have hf' : es'.length + dirTotalEntries cs + 2 ≤ fuel := by
            simp only [List.length_cons] at hf; omega
          rw [ih x es' cs (A ++ encodeDirEntry e) tbl htbl' hwx hwes' hwcs hf']
          simp
      | nil =>
          simp only [List.length_nil, List.map_nil, List.sum_nil, Nat.cast_zero, Nat.add_zero]
          have hec : (((0 : Int) + 1) - 1 : Int) = 0 := by omega
          cases cs with
          | cons c cs' =>
              simp only [List.map_cons, List.sum_cons]
              obtain ⟨hce, hcc, hents⟩ := hwcs c (by simp)
              obtain ⟨h, t, hct⟩ : ∃ h t, c.entries = h :: t := by
                cases hc : c.entries with
                | nil => exact absurd hc hce
                | cons h t => exact ⟨h, t, rfl⟩
              have hwh : WfDirEntry h := hents h (by rw [hct]; simp)
              obtain ⟨hhL1, hhL2, hht1, hht14⟩ := hwh
              have hn : c.entries.length = t.length + 1 := by rw [hct]; simp
              have hbc : chunkEntriesBytes c =
                  dirEntryBytes h + (t.map dirEntryBytes).sum := by
                rw [chunkEntriesBytes, hct]; simp
              have hEBh : dirEntryBytes h = 8 + h.name.length := rfl
              have h12 : ¬ (((15 + dirEntryBytes e +
                  ((12 + chunkEntriesBytes c) +
                    (cs'.map (fun c => 12 + chunkEntriesBytes c)).sum) : Nat) : Int) < 12) := by
                omega
              have h3 : ((15 + dirEntryBytes e +
                    ((12 + chunkEntriesBytes c) +
                      (cs'.map (fun c => 12 + chunkEntriesBytes c)).sum) : Nat) : Int) -
                  ((readU16 tbl (A.length + 6) + 1 + 8 : Nat) : Int) - 12 > 3 := by
                rw [hE6, hL]
                omega
              rw [sqfs_readdir_run_step tbl fuel _ _ _ _
                (sqfs_readdir_eq_newheader tbl A.length _ _ h12 htype hec h3)]
              rw [hE4, hE6, hL, hEN]
              have hc : (0 : Int) < ((15 + dirEntryBytes e +
                  ((12 + chunkEntriesBytes c) +
                    (cs'.map (fun c => 12 + chunkEntriesBytes c)).sum) : Nat) : Int) -
                  ((e.name.length + 8 : Nat) : Int) - 12 := by
                omega
              rw [decide_eq_true hc, if_pos rfl]
              rw [hA']
              have hread : readU32 tbl ((A ++ encodeDirEntry e).length) =
                  c.entries.length - 1 := by
                have hassoc : tbl = (A ++ encodeDirEntry e) ++
                    (encodeU32 (c.entries.length - 1) ++
                      (encodeU32 c.start ++ (encodeU32 c.inode_number ++
                        ((c.entries.map encodeDirEntry).flatten ++ dirListing cs')))) := by
                  rw [htbl]
                  simp [dirListing, encodeDirChunk, List.append_assoc]
                have hr := readU32_append (A ++ encodeDirEntry e)
                  (encodeU32 (c.entries.length - 1) ++
                    (encodeU32 c.start ++ (encodeU32 c.inode_number ++
                      ((c.entries.map encodeDirEntry).flatten ++ dirListing cs')))) 0
                rw [Nat.add_zero] at hr
                rw [hassoc, hr, readU32_encode, Nat.mod_eq_of_lt (by omega)]
              rw [hread]
              have hcount2 : ((c.entries.length - 1 : Nat) : Int) + 1 =
                  ((t.length : Nat) : Int) + 1 := by
                omega
              rw [hcount2]
              have hA'' : (A ++ encodeDirEntry e).length + 12 =
                  (A ++ encodeDirEntry e ++ encodeU32 (c.entries.length - 1) ++
                    encodeU32 c.start ++ encodeU32 c.inode_number).length := by
                simp only [List.length_append, encodeU32_length]
              rw [hA'']
              have hsz : ((15 + dirEntryBytes e +
                    ((12 + chunkEntriesBytes c) +
                      (cs'.map (fun c => 12 + chunkEntriesBytes c)).sum) : Nat) : Int) -
                  ((e.name.length + 8 : Nat) : Int) - 12 =
                  ((15 + dirEntryBytes h + (t.map dirEntryBytes).sum +
                    (cs'.map (fun c => 12 + chunkEntriesBytes c)).sum : Nat) : Int) := by
                omega
              rw [hsz]
              have htbl'' : tbl = (A ++ encodeDirEntry e ++ encodeU32 (c.entries.length - 1) ++
                  encodeU32 c.start ++ encodeU32 c.inode_number) ++
                  (encodeDirEntry h ++ ((t.map encodeDirEntry).flatten ++ dirListing cs')) := by
                rw [htbl]
                simp [dirListing, encodeDirChunk, hct, List.append_assoc]
              have hwt : ∀ y ∈ t, WfDirEntry y := fun y hy => hents y (by rw [hct]; simp [hy])
              have hwcs' : WfDirListing cs' := fun d hd => hwcs d (by simp [hd])
              have hf' : t.length + dirTotalEntries cs' + 2 ≤ fuel := by
                simp only [List.length_nil, dirTotalEntries, List.map_cons, List.sum_cons] at hf
                simp only [dirTotalEntries]
                omega
              rw [ih h t cs'
                (A ++ encodeDirEntry e ++ encodeU32 (c.entries.length - 1) ++
                  encodeU32 c.start ++ encodeU32 c.inode_number) tbl htbl'' ⟨hhL1, hhL2, hht1, hht14⟩ hwt hwcs' hf']
              simp [dirTableDirents, hct]
          | nil =>
              simp only [List.map_nil, List.sum_nil, Nat.add_zero]
              have h12 : ¬ (((15 + dirEntryBytes e : Nat) : Int) < 12) := by omega
              have h3 : ¬ (((15 + dirEntryBytes e : Nat) : Int) -
                  ((readU16 tbl (A.length + 6) + 1 + 8 : Nat) : Int) - 12 > 3) := by
                rw [hE6, hL]
                omega
              rw [sqfs_readdir_run_step tbl fuel _ _ _ _
                (sqfs_readdir_eq_laststop tbl A.length _ _ h12 htype hec h3)]
              rw [hE4, hE6, hL, hEN]
              have hval : ((15 + dirEntryBytes e : Nat) : Int) -
                  ((e.name.length + 8 : Nat) : Int) - 12 = (3 : Int) := by
                omega
              rw [hval]
              rw [decide_eq_true (by omega : (0 : Int) < 3), if_pos rfl]
              have hfuel1 : 1 ≤ fuel := by
                simp only [List.length_nil, dirTotalEntries, List.map_nil, List.sum_nil] at hf
                omega
              obtain ⟨fuel', rfl⟩ : ∃ fuel', fuel = fuel' + 1 := ⟨fuel - 1, by omega⟩
              rw [sqfs_readdir_run_none tbl fuel' _ (by
                simp only [sqfs_readdir]
                rw [if_pos (by omega : (3 : Int) < 12)])]
              simp [dirTableDirents]

/-- C9: two directory streams opened over the same immutable image observe
element-wise identical entry sequences under repeated `sqfs_readdir`, and that
common sequence is exactly the entries of the decoded directory listing in
on-disk order. -/
theorem readdir_deterministic_on_disk_order (cs : List DirChunk) (hwf : WfDirListing cs)
    (s1 s2 : SqfsDirStream)
    (h1 : s1 = sqfs_dirstream_init (dirListing cs) ((dirFileSize cs : Nat) : Int))
    (h2 : s2 = sqfs_dirstream_init (dirListing cs) ((dirFileSize cs : Nat) : Int)) :
    sqfs_readdir_run (dirListing cs) (dirTotalEntries cs + 1) s1 =
      sqfs_readdir_run (dirListing cs) (dirTotalEntries cs + 1) s2 ∧
    sqfs_readdir_run (dirListing cs) (dirTotalEntries cs + 1) s1 = dirTableDirents cs := by
  subst h1 h2
  refine ⟨rfl, ?_⟩
  cases cs with
  | nil =>
      have hlt : ((dirFileSize ([] : List DirChunk) : Nat) : Int) < 12 := by
        norm_num [dirFileSize]
      have hstop : sqfs_readdir (dirListing []) (sqfs_dirstream_init (dirListing [])
          ((dirFileSize [] : Nat) : Int)) = none := by
        simp only [sqfs_readdir, sqfs_dirstream_init]
        rw [if_pos hlt]
      rw [show dirTotalEntries [] + 1 = 0 + 1 from rfl,
        sqfs_readdir_run_none _ 0 _ hstop]
      simp [dirTableDirents]
  | cons c cs' =>
      obtain ⟨hce, hcc, hents⟩ := hwf c (by simp)
      obtain ⟨h, t, hct⟩ : ∃ h t, c.entries = h :: t := by
        cases hc : c.entries with
        | nil => exact absurd hc hce
        | cons h t => exact ⟨h, t, rfl⟩
      have hwh : WfDirEntry h := hents h (by rw [hct]; simp)
      have hn : c.entries.length = t.length + 1 := by rw [hct]; simp
      have hA : dirListing (c :: cs') =
          (encodeU32 (c.entries.length - 1) ++ encodeU32 c.start ++
            encodeU32 c.inode_number) ++
          (encodeDirEntry h ++ ((t.map encodeDirEntry).flatten ++ dirListing cs')) := by
        simp [dirListing, encodeDirChunk, hct, List.append_assoc]
      have hlenA : (encodeU32 (c.entries.length - 1) ++ encodeU32 c.start ++
          encodeU32 c.inode_number).length = 12 := by
        simp [encodeU32_length]
      have hc0 : readU32 (dirListing (c :: cs')) 0 = c.entries.length - 1 := by
        have : dirListing (c :: cs') = encodeU32 (c.entries.length - 1) ++
            (encodeU32 c.start ++ (encodeU32 c.inode_number ++
              (encodeDirEntry h ++ ((t.map encodeDirEntry).flatten ++ dirListing cs')))) := by
          rw [hA]; simp [List.append_assoc]
        rw [this, readU32_encode, Nat.mod_eq_of_lt (by omega)]
      have hinit : sqfs_dirstream_init (dirListing (c :: cs'))
          ((dirFileSize (c :: cs') : Nat) : Int) =
          ⟨(encodeU32 (c.entries.length - 1) ++ encodeU32 c.start ++
            encodeU32 c.inode_number).length, ((t.length : Nat) : Int) + 1,
           ((15 + dirEntryBytes h + (t.map dirEntryBytes).sum +
             (cs'.map (fun x => 12 + chunkEntriesBytes x)).sum : Nat) : Int)⟩ := by
        unfold sqfs_dirstream_init
        rw [hc0, hlenA]
        have hsz : dirFileSize (c :: cs') =
            15 + dirEntryBytes h + (t.map dirEntryBytes).sum +
              (cs'.map (fun x => 12 + chunkEntriesBytes x)).sum := by
          have hbc : chunkEntriesBytes c = dirEntryBytes h + (t.map dirEntryBytes).sum := by
            rw [chunkEntriesBytes, hct]; simp
          simp only [dirFileSize, List.map_cons, List.sum_cons]
          omega
        rw [hsz]
        have : ((c.entries.length - 1 : Nat) : Int) + 1 = ((t.length : Nat) : Int) + 1 := by
          omega
        rw [this]
      rw [hinit]
      have hfuel : t.length + dirTotalEntries cs' + 2 ≤ dirTotalEntries (c :: cs') + 1 := by
        simp only [dirTotalEntries, List.map_cons, List.sum_cons]
        omega
      rw [readdir_run_chunks (dirTotalEntries (c :: cs') + 1) h t cs'
        (encodeU32 (c.entries.length - 1) ++ encodeU32 c.start ++ encodeU32 c.inode_number)
        (dirListing (c :: cs')) hA hwh
        (fun y hy => hents y (by rw [hct]; simp [hy]))
        (fun d hd => hwf d (by simp [hd])) hfuel]
      simp [dirTableDirents, hct]

/-- Demo listing for the C9 witness: two chunks, the first with entries `a`
and `bc`, the second with entry `d`. -/
def c9_demo : List DirChunk :=
  [⟨0, 100, [⟨0, 0, 2, [97]⟩, ⟨32, 1, 1, [98, 99]⟩]⟩,
   ⟨1, 200, [⟨64, 2, 8, [100]⟩]⟩]

/-- C9 witness: on the demo listing the stream yields exactly the three
entries in on-disk order, twice over. -/
theorem readdir_deterministic_on_disk_order_witness :
    sqfs_readdir_run (dirListing c9_demo) (dirTotalEntries c9_demo + 1)
        (sqfs_dirstream_init (dirListing c9_demo) ((dirFileSize c9_demo : Nat) : Int)) =
      sqfs_readdir_run (dirListing c9_demo) (dirTotalEntries c9_demo + 1)
        (sqfs_dirstream_init (dirListing c9_demo) ((dirFileSize c9_demo : Nat) : Int)) ∧
    sqfs_readdir_run (dirListing c9_demo) (dirTotalEntries c9_demo + 1)
        (sqfs_dirstream_init (dirListing c9_demo) ((dirFileSize c9_demo : Nat) : Int)) =
      dirTableDirents c9_demo :=
  readdir_deterministic_on_disk_order c9_demo (by decide) _ _ rfl rfl
